import Mathlib

/-!
Shallow embedding of `src/algorithm.py` (MorphoMedia): preset/mode
resolution, engagement normalisation, diversity scoring, the repetition
guard and the greedy prototype feed builder.  Python floats are modelled
as rationals; the `float("-inf")` sentinel used for blocked candidates is
modelled as `none : Option ℚ`.
-/

namespace MorphoMedia

/-- One row of the candidate dataframe.  `video_id` is the unique
identifier produced by the data loader; `engagement` is the derived
column added by `add_engagement`. -/
structure Candidate where
  video_id : String
  topic : String
  channel : String
  view_count : ℕ
  engagement : ℚ
  prosocial : ℚ
  risk : ℚ
deriving DecidableEq, Repr

/-- A preset weight map `{"e": _, "d": _, "p": _, "r": _}`. -/
structure Weights where
  e : ℚ
  d : ℚ
  p : ℚ
  r : ℚ
deriving DecidableEq, Repr

/-- The `WEIGHTS` preset table (algorithm.py lines 18-23); `none` models a
missing dictionary key. -/
def WEIGHTS (preset : String) : Option Weights :=
  if preset = "baseline" then some ⟨1, 0, 0, 0⟩
  else if preset = "entertainment" then some ⟨11/20, 1/5, 3/20, 1/10⟩
  else if preset = "inspiration" then some ⟨3/10, 2/5, 1/5, 1/10⟩
  else if preset = "learning" then some ⟨3/10, 3/10, 3/10, 1/10⟩
  else none

def NIGHT_MODE_K : ℕ := 15

/-- Model of `night_mode_settings` (lines 27-42): add the risk boost, renormalise
when the total is nonzero, and return the night-mode feed length. -/
def night_mode_settings (w : Weights) (risk_boost : ℚ := 1/20) : Weights × ℕ :=
  let w2 : Weights := { w with r := w.r + risk_boost }
  let total : ℚ := w2.e + w2.d + w2.p + w2.r
  if total ≠ 0 then
    (⟨w2.e / total, w2.d / total, w2.p / total, w2.r / total⟩, NIGHT_MODE_K)
  else
    (w2, NIGHT_MODE_K)

/-- Model of `get_mode_settings` (lines 44-57); the Python `KeyError` is modelled
as `Except.error`. -/
def get_mode_settings (preset : String) (night_mode : Bool := false)
    (k_default : ℕ := 100) : Except String (Weights × ℕ) :=
  match WEIGHTS preset with
  | none => .error ("Unknown preset: " ++ preset)
  | some w => if night_mode then .ok (night_mode_settings w) else .ok (w, k_default)

/-- Model of `add_engagement` (lines 86-95): normalise `view_count` by the pool
maximum, falling back to 1 when the maximum is 0.  (On an empty frame
pandas returns NaN for the scalar; rows are unaffected, and here the
fallback 1 is returned instead.) -/
def add_engagement (df : List Candidate) : List Candidate × ℚ :=
  let max_views0 : ℕ := df.foldr (fun c m => max c.view_count m) 0
  let max_views : ℕ := if max_views0 = 0 then 1 else max_views0
  (df.map (fun c => { c with engagement := (c.view_count : ℚ) / (max_views : ℚ) }),
    (max_views : ℚ))

/-- Model of `diversity_counter` (lines 102-110). -/
def diversity_counter (topic channel : String)
    (recent_topics recent_channels : List String) : ℚ :=
  let topic_new : ℚ := if topic ∉ recent_topics then 1 else 0
  let channel_new : ℚ := if channel ∉ recent_channels then 1 else 0
  (1/2) * topic_new + (1/2) * channel_new

/-- Model of `score_parts` (lines 112-117). -/
def score_parts (e d p r : ℚ) (w : Weights) : ℚ :=
  (e * w.e) + (d * w.d) + (p * w.p) - (r * w.r)

/-- Python's negative slice `l[-k:]`: the whole list when `k = 0`
(because `-0 = 0`), otherwise the last `min k l.length` elements. -/
def slice_last (l : List String) (k : ℕ) : List String :=
  if k = 0 then l else l.drop (l.length - k)

/-- Model of `would_break_streak` (lines 119-126). -/
def would_break_streak (recent_list : List String) (candidate_value : String)
    (max_streak : ℕ := 2) : Bool :=
  if recent_list.length < max_streak then false
  else (slice_last recent_list max_streak).all (fun x => x = candidate_value)

/-- A row of the working frame after the `diversity` and `score` columns
have been assigned; also the shape of an emitted feed row.  `score = none`
models the `float("-inf")` sentinel. -/
structure ScoredRow where
  row : Candidate
  diversity : ℚ
  score : Option ℚ
deriving DecidableEq, Repr

/-- Scoring of one candidate in the guarded pass (lines 171-193). -/
def score_candidate (weights : Weights)
    (recent_topics recent_channels window_topics window_channels : List String)
    (max_streak : ℕ) (row : Candidate) : ScoredRow :=
  if would_break_streak recent_topics row.topic max_streak
      || would_break_streak recent_channels row.channel max_streak then
    ⟨row, 0, none⟩
  else
    let d := diversity_counter row.topic row.channel window_topics window_channels
    ⟨row, d, some (score_parts row.engagement d row.prosocial row.risk weights)⟩

/-- Scoring of one candidate in the relaxation pass (lines 201-218): no
repetition-guard check. -/
def score_candidate_relaxed (weights : Weights)
    (window_topics window_channels : List String) (row : Candidate) : ScoredRow :=
  let d := diversity_counter row.topic row.channel window_topics window_channels
  ⟨row, d, some (score_parts row.engagement d row.prosocial row.risk weights)⟩

/-- Maximum of two scores, with the `-inf` sentinel as bottom. -/
def score_max : Option ℚ → Option ℚ → Option ℚ
  | none, b => b
  | some a, none => some a
  | some a, some b => some (max a b)

/-- Model of `remaining["score"].max()` (pandas series maximum; `none` iff every
score is the sentinel, or the frame is empty). -/
def max_score (l : List ScoredRow) : Option ℚ :=
  l.foldr (fun r m => score_max r.score m) none

/-- Model of `idxmax` followed by `.loc`/`.drop`: return the first row whose score
equals `m` together with the remaining rows in order. -/
def extract_first (m : Option ℚ) : List ScoredRow → Option (ScoredRow × List ScoredRow)
  | [] => none
  | x :: xs =>
    if x.score = m then some (x, xs)
    else
      match extract_first m xs with
      | none => none
      | some (y, ys) => some (y, x :: ys)

/-- State of the builder loop: the remaining pool, the emitted rows and
the two pick histories.  `relaxed_picks` is a ghost counter recording how
often the relaxation branch (lines 199-221) fired; it influences no
computation. -/
structure BuilderState where
  remaining : List Candidate
  feed_rows : List ScoredRow
  recent_topics : List String
  recent_channels : List String
  relaxed_picks : ℕ
deriving Repr

/-- Lines 223-230: select the first row attaining the maximal score,
append it to the feed and the histories, drop it from the pool.  `inc` is
the ghost relaxation increment. -/
def select_and_remove (scored : List ScoredRow) (st : BuilderState) (inc : ℕ) :
    BuilderState :=
  match extract_first (max_score scored) scored with
  | none => st
  | some (best, rest) =>
    { remaining := rest.map (·.row)
      feed_rows := st.feed_rows ++ [best]
      recent_topics := st.recent_topics ++ [best.row.topic]
      recent_channels := st.recent_channels ++ [best.row.channel]
      relaxed_picks := st.relaxed_picks + inc }

/-- The guarded scoring pass over the remaining pool (lines 163-197). -/
def strict_scored (weights : Weights) (recent_window max_streak : ℕ)
    (st : BuilderState) : List ScoredRow :=
  st.remaining.map
    (score_candidate weights st.recent_topics st.recent_channels
      (slice_last st.recent_topics recent_window)
      (slice_last st.recent_channels recent_window) max_streak)

/-- The relaxation re-scoring pass over the remaining pool
(lines 201-221). -/
def relaxed_scored (weights : Weights) (recent_window : ℕ)
    (st : BuilderState) : List ScoredRow :=
  st.remaining.map
    (score_candidate_relaxed weights
      (slice_last st.recent_topics recent_window)
      (slice_last st.recent_channels recent_window))

/-- One iteration of the loop body (lines 163-230): score under the
guard; if everything is blocked (maximal score is the sentinel, line
200), relax the streak rule for this one pick; then select and drop. -/
def build_step (weights : Weights) (recent_window max_streak : ℕ)
    (st : BuilderState) : BuilderState :=
  if max_score (strict_scored weights recent_window max_streak st) = none then
    select_and_remove (relaxed_scored weights recent_window st) st 1
  else
    select_and_remove (strict_scored weights recent_window max_streak st) st 0

/-- The `for _ in range(k)` loop (lines 159-230). -/
def build_loop (weights : Weights) (recent_window max_streak : ℕ) :
    ℕ → BuilderState → BuilderState
  | 0, st => st
  | Nat.succ fuel, st =>
    if st.remaining.isEmpty then st
    else build_loop weights recent_window max_streak fuel
      (build_step weights recent_window max_streak st)

/-- Model of `build_prototype_feed` (lines 140-232). -/
def build_prototype_feed (df : List Candidate) (weights : Weights)
    (k : ℕ := 100) (recent_window : ℕ := 10) (max_streak : ℕ := 2) :
    List ScoredRow :=
  (build_loop weights recent_window max_streak k ⟨df, [], [], [], 0⟩).feed_rows

/-- Topic column of a feed. -/
def topics_of (feed : List ScoredRow) : List String :=
  feed.map (fun e => e.row.topic)

/-- Channel column of a feed. -/
def channels_of (feed : List ScoredRow) : List String :=
  feed.map (fun e => e.row.channel)

/-- Number of iterations of a full build in which the relaxation branch
fired. -/
def relax_count (df : List Candidate) (weights : Weights)
    (k recent_window max_streak : ℕ) : ℕ :=
  (build_loop weights recent_window max_streak k ⟨df, [], [], [], 0⟩).relaxed_picks

/-- Length of the initial run of elements equal to `v`. -/
def run_from (v : String) : List String → ℕ
  | [] => 0
  | x :: xs => if x = v then 1 + run_from v xs else 0

/-- Length of the longest run of consecutive equal elements: the maximum,
over all suffixes, of the leading run of that suffix. -/
def max_run : List String → ℕ
  | [] => 0
  | x :: xs => max (1 + run_from x xs) (max_run xs)

/-! Heap-level model used for the frame (no-mutation) analysis: Python
objects live in a store whose addresses are list indices; allocation
appends a cell, in-place mutation is `List.set`.  A dataframe cell
records whether the `diversity`/`score` columns are present, so that
"no columns were added to the input" is observable. -/

/-- A dataframe value: a frame either without or with the derived
`diversity`/`score` columns. -/
inductive Frame
  | plain (rows : List Candidate)
  | scored (rows : List ScoredRow)
deriving DecidableEq, Repr

/-- Underlying candidate rows of a frame. -/
def Frame.rows : Frame → List Candidate
  | .plain rs => rs
  | .scored rs => rs.map (·.row)

/-- Fixed addresses of the four preset dictionaries stored in the
module-level `WEIGHTS` table. -/
def WEIGHTS_addr (preset : String) : Option ℕ :=
  if preset = "baseline" then some 0
  else if preset = "entertainment" then some 1
  else if preset = "inspiration" then some 2
  else if preset = "learning" then some 3
  else none

/-- Initial weight store: the four preset dictionaries of `WEIGHTS`. -/
def WEIGHTS_store : List Weights :=
  [⟨1, 0, 0, 0⟩, ⟨11/20, 1/5, 3/20, 1/10⟩, ⟨3/10, 2/5, 1/5, 1/10⟩,
    ⟨3/10, 3/10, 3/10, 1/10⟩]

/-- Heap-level `night_mode_settings`: `w2 = dict(w)` allocates a fresh
cell; the key update and the renormalisation loop write only to that
fresh cell (the four per-key divisions are fused into one store).
Returns the new store, the address of `w2` and the feed length. -/
def night_mode_settings_heap (h : List Weights) (a : ℕ)
    (risk_boost : ℚ := 1/20) : List Weights × ℕ × ℕ :=
  match h.get? a with
  | none => (h, a, NIGHT_MODE_K)
  | some w =>
    let a2 := h.length
    let h2 := h ++ [w]
    let w2 : Weights := { w with r := w.r + risk_boost }
    let h3 := h2.set a2 w2
    let total : ℚ := w2.e + w2.d + w2.p + w2.r
    let h4 :=
      if total ≠ 0 then
        h3.set a2 ⟨w2.e / total, w2.d / total, w2.p / total, w2.r / total⟩
      else h3
    (h4, a2, NIGHT_MODE_K)

/-- Heap-level `get_mode_settings`: the preset lookup returns the stored
address (an alias, not a copy); night mode goes through
`night_mode_settings_heap`. -/
def get_mode_settings_heap (h : List Weights) (preset : String)
    (night_mode : Bool) (k_default : ℕ) : List Weights × Except String (ℕ × ℕ) :=
  match WEIGHTS_addr preset with
  | none => (h, .error ("Unknown preset: " ++ preset))
  | some a =>
    if night_mode then
      match night_mode_settings_heap h a with
      | (h2, a2, k) => (h2, .ok (a2, k))
    else (h, .ok (a, k_default))

/-- Heap-level loop body: read the remaining frame at `ar`, score it,
allocate the working copy of line 195, store the column assignments of
lines 196-197 (and 220-221 on relaxation) into that fresh cell, and
allocate the dropped frame of line 230.  Returns the new store, the new
`remaining` address and the picked row. -/
def build_step_heap (weights : Weights) (recent_window max_streak : ℕ)
    (h : List Frame) (ar : ℕ) (recent_topics recent_channels : List String) :
    List Frame × ℕ × Option ScoredRow :=
  let rows := ((h.get? ar).map Frame.rows).getD []
  let window_topics := slice_last recent_topics recent_window
  let window_channels := slice_last recent_channels recent_window
  let scored := rows.map
    (score_candidate weights recent_topics recent_channels
      window_topics window_channels max_streak)
  let ar2 := h.length
  let h2 := h ++ [(h.get? ar).getD (.plain [])]
  let scored2 :=
    if max_score scored = none then
      rows.map (score_candidate_relaxed weights window_topics window_channels)
    else scored
  let h3 := h2.set ar2 (.scored scored2)
  match extract_first (max_score scored2) scored2 with
  | none => (h3, ar2, none)
  | some (best, rest) =>
    let ar3 := h3.length
    let h4 := h3 ++ [.scored rest]
    (h4, ar3, some best)

/-- Heap-level builder loop. -/
def build_loop_heap (weights : Weights) (recent_window max_streak : ℕ) :
    ℕ → List Frame → ℕ → List String → List String → List ScoredRow →
    List Frame × List ScoredRow
  | 0, h, _, _, _, feed => (h, feed)
  | Nat.succ fuel, h, ar, rt, rc, feed =>
    if (((h.get? ar).map Frame.rows).getD []).isEmpty then (h, feed)
    else
      match build_step_heap weights recent_window max_streak h ar rt rc with
      | (h2, _, none) => (h2, feed)
      | (h2, ar2, some best) =>
        build_loop_heap weights recent_window max_streak fuel h2 ar2
          (rt ++ [best.row.topic]) (rc ++ [best.row.channel]) (feed ++ [best])

/-- Heap-level `build_prototype_feed`: line 153 allocates the private
working copy of the caller's frame at `adf`; the loop then only reads the
store below the copy. -/
def build_prototype_feed_heap (h : List Frame) (adf : ℕ) (weights : Weights)
    (k recent_window max_streak : ℕ) : List Frame × List ScoredRow :=
  let h1 := h ++ [(h.get? adf).getD (.plain [])]
  build_loop_heap weights recent_window max_streak k h1 h.length [] [] []

/-! Concrete fixtures for evaluations. -/

/-- A four-row pool sharing one topic with distinct channels and ids;
all numeric fields zero. -/
def samePool : List Candidate :=
  [⟨"v1", "A", "X1", 0, 0, 0, 0⟩, ⟨"v2", "A", "X2", 0, 0, 0, 0⟩,
    ⟨"v3", "A", "X3", 0, 0, 0, 0⟩, ⟨"v4", "A", "X4", 0, 0, 0, 0⟩]

/-- The entertainment preset weights. -/
def wEnt : Weights := ⟨11/20, 1/5, 3/20, 1/10⟩

/-! Helper lemmas. -/

lemma score_candidate_row (w : Weights) (rt rc wt wc : List String) (S : ℕ)
    (c : Candidate) : (score_candidate w rt rc wt wc S c).row = c := by
  unfold score_candidate
  split <;> rfl

lemma score_candidate_relaxed_row (w : Weights) (wt wc : List String)
    (c : Candidate) : (score_candidate_relaxed w wt wc c).row = c := rfl

lemma diversity_counter_cases (t c : String) (rt rc : List String) :
    diversity_counter t c rt rc = 0 ∨ diversity_counter t c rt rc = 1/2 ∨
      diversity_counter t c rt rc = 1 := by
  unfold diversity_counter
  split <;> split <;> norm_num

lemma score_max_cases (a b : Option ℚ) : score_max a b = a ∨ score_max a b = b := by
  cases a with
  | none => right; rfl
  | some x =>
    cases b with
    | none => left; rfl
    | some y =>
      rcases le_total x y with h | h
      · right; simp [score_max, max_eq_right h]
      · left; simp [score_max, max_eq_left h]

lemma max_score_cons (a : ScoredRow) (l : List ScoredRow) :
    max_score (a :: l) = score_max a.score (max_score l) := rfl

lemma max_score_attained : ∀ (l : List ScoredRow), l ≠ [] →
    ∃ x ∈ l, x.score = max_score l
  | [], h => absurd rfl h
  | a :: as, _ => by
    rcases score_max_cases a.score (max_score as) with h | h
    · exact ⟨a, List.mem_cons_self _ _, by rw [max_score_cons, h]⟩
    · rcases as with _ | ⟨b, bs⟩
      · refine ⟨a, List.mem_cons_self _ _, ?_⟩
        cases ha : a.score <;>
          simp [max_score_cons, max_score, score_max, ha]
      · obtain ⟨x, hx, hsc⟩ := max_score_attained (b :: bs) (by simp)
        exact ⟨x, List.mem_cons_of_mem _ hx, by rw [max_score_cons, h]; exact hsc⟩

lemma max_score_eq_none_iff (l : List ScoredRow) :
    max_score l = none ↔ ∀ x ∈ l, x.score = none := by
  induction l with
  | nil => simp [max_score]
  | cons a as ih =>
    rw [max_score_cons]
    cases ha : a.score with
    | none =>
      simp only [score_max]
      constructor
      · intro hm x hx
        rcases List.mem_cons.mp hx with rfl | hx
        · exact ha
        · exact (ih.mp hm) x hx
      · intro hall
        exact ih.mpr fun x hx => hall x (List.mem_cons_of_mem _ hx)
    | some q =>
      constructor
      · intro hm
        exfalso
        cases hms : max_score as <;> rw [hms] at hm <;> simp [score_max] at hm
      · intro hall
        exact absurd (hall a (List.mem_cons_self _ _)) (by simp [ha])

lemma extract_first_spec (m : Option ℚ) :
    ∀ (l : List ScoredRow) (x : ScoredRow) (ys : List ScoredRow),
      extract_first m l = some (x, ys) →
      ∃ pre suf, l = pre ++ x :: suf ∧ ys = pre ++ suf ∧ x.score = m ∧
        ∀ y ∈ pre, y.score ≠ m
  | [], x, ys, h => by simp [extract_first] at h
  | a :: as, x, ys, h => by
    rw [extract_first] at h
    by_cases ha : a.score = m
    · rw [if_pos ha] at h
      obtain ⟨rfl, rfl⟩ : a = x ∧ as = ys := by simpa using h
      exact ⟨[], as, rfl, rfl, ha, by simp⟩
    · rw [if_neg ha] at h
      cases he : extract_first m as with
      | none => rw [he] at h; cases h
      | some p =>
        obtain ⟨y, ys2⟩ := p
        rw [he] at h
        have h5 : y = x ∧ a :: ys2 = ys := by simpa using h
        obtain ⟨rfl, rfl⟩ := h5
        obtain ⟨pre, suf, h1, h2, h3, h4⟩ := extract_first_spec m as y ys2 he
        refine ⟨a :: pre, suf, by simp [h1], by simp [h2], h3, ?_⟩
        intro z hz
        rcases List.mem_cons.mp hz with rfl | hz
        · exact ha
        · exact h4 z hz

lemma extract_first_total (m : Option ℚ) :
    ∀ (l : List ScoredRow), (∃ x ∈ l, x.score = m) →
      ∃ p, extract_first m l = some p
  | [], h => by simp at h
  | a :: as, h => by
    rw [extract_first]
    by_cases ha : a.score = m
    · exact ⟨(a, as), by rw [if_pos ha]⟩
    · obtain ⟨x, hx, hsc⟩ := h
      rcases List.mem_cons.mp hx with rfl | hx
      · exact absurd hsc ha
      · obtain ⟨⟨y, ys⟩, he⟩ := extract_first_total m as ⟨x, hx, hsc⟩
        exact ⟨(y, a :: ys), by rw [if_neg ha, he]⟩

lemma select_and_remove_spec (scored : List ScoredRow) (st : BuilderState)
    (inc : ℕ) (hne : scored ≠ []) :
    ∃ best rest pre suf,
      extract_first (max_score scored) scored = some (best, rest) ∧
      scored = pre ++ best :: suf ∧ rest = pre ++ suf ∧
      best.score = max_score scored ∧
      select_and_remove scored st inc =
        { remaining := rest.map (fun r => r.row)
          feed_rows := st.feed_rows ++ [best]
          recent_topics := st.recent_topics ++ [best.row.topic]
          recent_channels := st.recent_channels ++ [best.row.channel]
          relaxed_picks := st.relaxed_picks + inc } := by
  obtain ⟨x, hx, hsc⟩ := max_score_attained scored hne
  obtain ⟨⟨best, rest⟩, he⟩ :=
    extract_first_total (max_score scored) scored ⟨x, hx, hsc⟩
  obtain ⟨pre, suf, h1, h2, h3, _⟩ := extract_first_spec _ _ _ _ he
  exact ⟨best, rest, pre, suf, he, h1, h2, h3, by simp [select_and_remove, he]⟩

lemma strict_scored_map_row (w : Weights) (W S : ℕ) (st : BuilderState) :
    (strict_scored w W S st).map (fun r => r.row) = st.remaining := by
  simp [strict_scored, List.map_map, Function.comp_def, score_candidate_row]

lemma relaxed_scored_map_row (w : Weights) (W : ℕ) (st : BuilderState) :
    (relaxed_scored w W st).map (fun r => r.row) = st.remaining := by
  simp [relaxed_scored, List.map_map, Function.comp_def, score_candidate_relaxed_row]

lemma build_step_blocked (w : Weights) (W S : ℕ) (st : BuilderState)
    (hall : max_score (strict_scored w W S st) = none) :
    build_step w W S st = select_and_remove (relaxed_scored w W st) st 1 := by
  rw [build_step, if_pos hall]

lemma build_step_not_blocked (w : Weights) (W S : ℕ) (st : BuilderState)
    (hall : max_score (strict_scored w W S st) ≠ none) :
    build_step w W S st = select_and_remove (strict_scored w W S st) st 0 := by
  rw [build_step, if_neg hall]

lemma mem_relaxed_scored (w : Weights) (W : ℕ) (st : BuilderState)
    (e : ScoredRow) (he : e ∈ relaxed_scored w W st) :
    e.score ≠ none ∧
      (e.diversity = 0 ∨ e.diversity = 1/2 ∨ e.diversity = 1) := by
  obtain ⟨c, _, rfl⟩ := List.mem_map.mp he
  exact ⟨by simp [score_candidate_relaxed],
    by simpa [score_candidate_relaxed] using diversity_counter_cases _ _ _ _⟩

lemma mem_strict_scored (w : Weights) (W S : ℕ) (st : BuilderState)
    (e : ScoredRow) (he : e ∈ strict_scored w W S st) (hsc : e.score ≠ none) :
    (e.diversity = 0 ∨ e.diversity = 1/2 ∨ e.diversity = 1) ∧
      would_break_streak st.recent_topics e.row.topic S = false ∧
      would_break_streak st.recent_channels e.row.channel S = false := by
  obtain ⟨c, _, rfl⟩ := List.mem_map.mp he
  by_cases hb1 : would_break_streak st.recent_topics c.topic S = true
  · exact absurd (by simp [score_candidate, hb1]) hsc
  by_cases hb2 : would_break_streak st.recent_channels c.channel S = true
  · exact absurd (by simp [score_candidate, hb2]) hsc
  have hb1f : would_break_streak st.recent_topics c.topic S = false := by
    simpa using hb1
  have hb2f : would_break_streak st.recent_channels c.channel S = false := by
    simpa using hb2
  have hrow : (score_candidate w st.recent_topics st.recent_channels
      (slice_last st.recent_topics W) (slice_last st.recent_channels W) S c).row
        = c := score_candidate_row _ _ _ _ _ _ _
  refine ⟨?_, by rw [hrow]; exact hb1f, by rw [hrow]; exact hb2f⟩
  simpa [score_candidate, hb1f, hb2f] using diversity_counter_cases _ _ _ _

/-- Master behavioural lemma for one loop iteration on a non-empty pool:
the step emits exactly one row `e`, extends both histories by `e`, shrinks
the pool by one, permutes feed+pool, the emitted score is never the
sentinel, the emitted diversity is a `diversity_counter` value, and
either the iteration was guarded (counter unchanged and the repetition
guard approved `e`) or it was a relaxation iteration (counter bumped). -/
lemma build_step_spec (w : Weights) (W S : ℕ) (st : BuilderState)
    (h : st.remaining ≠ []) :
    ∃ e : ScoredRow,
      (build_step w W S st).feed_rows = st.feed_rows ++ [e] ∧
      (build_step w W S st).recent_topics = st.recent_topics ++ [e.row.topic] ∧
      (build_step w W S st).recent_channels = st.recent_channels ++ [e.row.channel] ∧
      (build_step w W S st).remaining.length + 1 = st.remaining.length ∧
      List.Perm
        ((build_step w W S st).feed_rows.map (fun r => r.row) ++
          (build_step w W S st).remaining)
        (st.feed_rows.map (fun r => r.row) ++ st.remaining) ∧
      e.score ≠ none ∧
      (e.diversity = 0 ∨ e.diversity = 1/2 ∨ e.diversity = 1) ∧
      (((build_step w W S st).relaxed_picks = st.relaxed_picks ∧
          would_break_streak st.recent_topics e.row.topic S = false ∧
          would_break_streak st.recent_channels e.row.channel S = false) ∨
        (build_step w W S st).relaxed_picks = st.relaxed_picks + 1) := by
  by_cases hall : max_score (strict_scored w W S st) = none
  · -- relaxation branch
    rw [build_step_blocked w W S st hall]
    have hne : relaxed_scored w W st ≠ [] := by
      intro hnil
      exact h (by simpa [hnil] using (relaxed_scored_map_row w W st).symm)
    obtain ⟨best, rest, pre, suf, _, h1, h2, _, heq⟩ :=
      select_and_remove_spec (relaxed_scored w W st) st 1 hne
    have hbest : best ∈ relaxed_scored w W st := h1 ▸ List.mem_append_right _
      (List.mem_cons_self _ _)
    obtain ⟨hscore, hdiv⟩ := mem_relaxed_scored w W st best hbest
    refine ⟨best, by rw [heq], by rw [heq], by rw [heq], ?_, ?_, hscore, hdiv,
      Or.inr (by rw [heq])⟩
    · rw [heq]
      have : (relaxed_scored w W st).length = st.remaining.length := by
        rw [← relaxed_scored_map_row w W st, List.length_map]
      rw [h1] at this
      simp only [h2]
      simp only [List.length_append, List.length_cons, List.length_map] at this ⊢
      omega
    · rw [heq]
      have hrem : st.remaining = (pre ++ best :: suf).map (fun r => r.row) := by
        rw [← h1, relaxed_scored_map_row]
      simp only [h2, hrem, List.map_append, List.map_cons, List.map_nil,
        List.append_assoc, List.nil_append, List.cons_append]
      exact List.Perm.append_left _ (List.Perm.symm List.perm_middle)
  · -- guarded branch
    rw [build_step_not_blocked w W S st hall]
    have hne : strict_scored w W S st ≠ [] := by
      intro hnil
      exact h (by simpa [hnil] using (strict_scored_map_row w W S st).symm)
    obtain ⟨best, rest, pre, suf, _, h1, h2, h3, heq⟩ :=
      select_and_remove_spec (strict_scored w W S st) st 0 hne
    have hbest : best ∈ strict_scored w W S st := h1 ▸ List.mem_append_right _
      (List.mem_cons_self _ _)
    have hscore : best.score ≠ none := by rw [h3]; exact hall
    obtain ⟨hdiv, hw1, hw2⟩ := mem_strict_scored w W S st best hbest hscore
    refine ⟨best, by rw [heq], by rw [heq], by rw [heq], ?_, ?_, hscore, hdiv,
      Or.inl ⟨by simp [heq], hw1, hw2⟩⟩
    · rw [heq]
      have : (strict_scored w W S st).length = st.remaining.length := by
        rw [← strict_scored_map_row w W S st, List.length_map]
      rw [h1] at this
      simp only [h2]
      simp only [List.length_append, List.length_cons, List.length_map] at this ⊢
      omega
    · rw [heq]
      have hrem : st.remaining = (pre ++ best :: suf).map (fun r => r.row) := by
        rw [← h1, strict_scored_map_row]
      simp only [h2, hrem, List.map_append, List.map_cons, List.map_nil,
        List.append_assoc, List.nil_append, List.cons_append]
      exact List.Perm.append_left _ (List.Perm.symm List.perm_middle)


lemma build_loop_succ_empty (w : Weights) (W S n : ℕ) (st : BuilderState)
    (h : st.remaining = []) : build_loop w W S (n + 1) st = st := by
  simp [build_loop, h]

lemma build_loop_succ (w : Weights) (W S n : ℕ) (st : BuilderState)
    (h : st.remaining ≠ []) :
    build_loop w W S (n + 1) st = build_loop w W S n (build_step w W S st) := by
  simp [build_loop, h]

lemma build_loop_length (w : Weights) (W S : ℕ) : ∀ (n : ℕ) (st : BuilderState),
    (build_loop w W S n st).feed_rows.length =
      st.feed_rows.length + min n st.remaining.length
  | 0, st => by simp [build_loop]
  | n + 1, st => by
    by_cases h : st.remaining = []
    · simp [build_loop_succ_empty w W S n st h, h]
    · rw [build_loop_succ w W S n st h, build_loop_length w W S n _]
      obtain ⟨e, h1, _, _, hlen, _, _, _, _⟩ := build_step_spec w W S st h
      rw [h1]
      simp only [List.length_append, List.length_cons, List.length_nil]
      omega

lemma build_loop_perm (w : Weights) (W S : ℕ) : ∀ (n : ℕ) (st : BuilderState),
    List.Perm
      ((build_loop w W S n st).feed_rows.map (fun r => r.row) ++
        (build_loop w W S n st).remaining)
      (st.feed_rows.map (fun r => r.row) ++ st.remaining)
  | 0, st => by simp [build_loop]
  | n + 1, st => by
    by_cases h : st.remaining = []
    · rw [build_loop_succ_empty w W S n st h]
    · rw [build_loop_succ w W S n st h]
      obtain ⟨e, _, _, _, _, hperm, _, _, _⟩ := build_step_spec w W S st h
      exact (build_loop_perm w W S n _).trans hperm

lemma build_loop_entries (w : Weights) (W S : ℕ) : ∀ (n : ℕ) (st : BuilderState),
    ∀ e ∈ (build_loop w W S n st).feed_rows,
      e ∈ st.feed_rows ∨
        (e.score ≠ none ∧ (e.diversity = 0 ∨ e.diversity = 1/2 ∨ e.diversity = 1))
  | 0, st => fun e he => Or.inl he
  | n + 1, st => by
    by_cases h : st.remaining = []
    · rw [build_loop_succ_empty w W S n st h]
      exact fun e he => Or.inl he
    · rw [build_loop_succ w W S n st h]
      intro e he
      obtain ⟨e1, h1, _, _, _, _, hsc, hdiv, _⟩ := build_step_spec w W S st h
      rcases build_loop_entries w W S n _ e he with hmem | hgood
      · rw [h1] at hmem
        rcases List.mem_append.mp hmem with hmem | hmem
        · exact Or.inl hmem
        · rcases List.mem_singleton.mp hmem with rfl
          exact Or.inr ⟨hsc, hdiv⟩
      · exact Or.inr hgood

lemma build_loop_histories (w : Weights) (W S : ℕ) : ∀ (n : ℕ) (st : BuilderState),
    st.recent_topics = topics_of st.feed_rows →
    st.recent_channels = channels_of st.feed_rows →
    (build_loop w W S n st).recent_topics =
        topics_of (build_loop w W S n st).feed_rows ∧
      (build_loop w W S n st).recent_channels =
        channels_of (build_loop w W S n st).feed_rows
  | 0, st, ht, hc => by simpa [build_loop] using ⟨ht, hc⟩
  | n + 1, st, ht, hc => by
    by_cases h : st.remaining = []
    · rw [build_loop_succ_empty w W S n st h]
      exact ⟨ht, hc⟩
    · rw [build_loop_succ w W S n st h]
      obtain ⟨e, h1, h2, h3, _, _, _, _, _⟩ := build_step_spec w W S st h
      exact build_loop_histories w W S n _
        (by rw [h1, h2, ht, topics_of, topics_of, List.map_append]; rfl)
        (by rw [h1, h3, hc, channels_of, channels_of, List.map_append]; rfl)

/-! Run-length machinery for the streak analysis. -/

lemma run_from_cons (v x : String) (l : List String) :
    run_from v (x :: l) = if x = v then 1 + run_from v l else 0 := rfl

lemma max_run_cons (x : String) (l : List String) :
    max_run (x :: l) = max (1 + run_from x l) (max_run l) := rfl

lemma run_from_le_max_run (v : String) (l : List String) :
    run_from v l ≤ max_run l := by
  cases l with
  | nil => exact Nat.le.refl
  | cons x xs =>
    rw [run_from_cons, max_run_cons]
    by_cases hxv : x = v
    · subst hxv
      rw [if_pos rfl]
      exact le_max_left _ _
    · simp [hxv]

lemma take_all_iff_run_from (v : String) : ∀ (S : ℕ) (r : List String),
    (S ≤ r.length ∧ ∀ x ∈ r.take S, x = v) ↔ S ≤ run_from v r
  | 0, r => by simp
  | S + 1, [] => by simp [run_from]
  | S + 1, x :: xs => by
    rw [run_from_cons]
    by_cases hxv : x = v
    · rw [if_pos hxv]
      have ih := take_all_iff_run_from v S xs
      simp only [List.take_succ_cons, List.mem_cons, List.length_cons]
      constructor
      · rintro ⟨hlen, hall⟩
        have hS : S ≤ run_from v xs :=
          ih.mp ⟨by omega, fun y hy => hall y (Or.inr hy)⟩
        omega
      · intro hle
        have hS : S ≤ run_from v xs := by omega
        obtain ⟨hlen, hall⟩ := ih.mpr hS
        refine ⟨by omega, ?_⟩
        rintro y (rfl | hy)
        · exact hxv
        · exact hall y hy
    · rw [if_neg hxv]
      simp only [List.take_succ_cons, List.mem_cons, List.length_cons]
      constructor
      · rintro ⟨_, hall⟩
        exact absurd (hall x (Or.inl rfl)) hxv
      · omega

lemma wbs_true_iff (l : List String) (v : String) (S : ℕ) (hS : 1 ≤ S) :
    would_break_streak l v S = true ↔
      (S ≤ l.length ∧ ∀ x ∈ l.drop (l.length - S), x = v) := by
  unfold would_break_streak slice_last
  rw [if_neg (by omega : ¬ S = 0)]
  by_cases hlen : l.length < S
  · rw [if_pos hlen]
    simp only [Bool.false_eq_true, false_iff, not_and]
    intro hc
    omega
  · rw [if_neg hlen]
    rw [List.all_eq_true]
    constructor
    · intro hall
      exact ⟨by omega, fun x hx => by simpa using hall x hx⟩
    · intro h x hx
      have := h.2 x hx
      simpa using this

lemma drop_sub_eq_reverse_take (l : List String) (S : ℕ) :
    l.drop (l.length - S) = (l.reverse.take S).reverse := by
  rw [List.take_reverse, List.reverse_reverse]

lemma wbs_true_iff_run (l : List String) (v : String) (S : ℕ) (hS : 1 ≤ S) :
    would_break_streak l v S = true ↔ S ≤ run_from v l.reverse := by
  rw [wbs_true_iff l v S hS, ← take_all_iff_run_from v S l.reverse]
  rw [List.length_reverse]
  constructor
  · rintro ⟨hlen, hall⟩
    refine ⟨hlen, fun x hx => hall x ?_⟩
    rw [drop_sub_eq_reverse_take]
    exact List.mem_reverse.mpr hx
  · rintro ⟨hlen, hall⟩
    refine ⟨hlen, fun x hx => hall x ?_⟩
    rw [drop_sub_eq_reverse_take] at hx
    exact List.mem_reverse.mp hx

lemma wbs_false_tail (l : List String) (v : String) (S : ℕ) (hS : 1 ≤ S)
    (h : would_break_streak l v S = false) : 1 + run_from v l.reverse ≤ S := by
  have hnot : ¬ S ≤ run_from v l.reverse := by
    rw [← wbs_true_iff_run l v S hS, h]
    simp
  omega

lemma replicate_prefix_le (v : String) : ∀ (n : ℕ) (l : List String),
    List.replicate n v <+: l → n ≤ run_from v l
  | 0, _, _ => Nat.zero_le _
  | n + 1, l, h => by
    obtain ⟨t, ht⟩ := h
    rw [List.replicate_succ, List.cons_append] at ht
    subst ht
    rw [run_from_cons, if_pos rfl]
    have := replicate_prefix_le v n (List.replicate n v ++ t) ⟨t, rfl⟩
    omega

lemma replicate_infix_le_max_run (v : String) (n : ℕ) :
    ∀ (l : List String), List.replicate n v <:+: l → n ≤ max_run l
  | [], h => by
    have h0 := List.eq_nil_of_infix_nil h
    have : n = 0 := by simpa using congrArg List.length h0
    omega
  | x :: xs, h => by
    rcases List.infix_cons_iff.mp h with hp | hi
    · cases n with
      | zero => exact Nat.zero_le _
      | succ n =>
        obtain ⟨t, ht⟩ := hp
        rw [List.replicate_succ, List.cons_append] at ht
        have hvx : v = x := (List.cons.injEq _ _ _ _ ▸ ht).1
        have ht2 : List.replicate n v ++ t = xs := (List.cons.injEq _ _ _ _ ▸ ht).2
        subst hvx
        rw [max_run_cons]
        have hrun : n ≤ run_from v xs :=
          replicate_prefix_le v n xs (ht2 ▸ ⟨t, rfl⟩)
        have hle : n + 1 ≤ 1 + run_from v xs := by omega
        exact le_trans hle (le_max_left _ _)
    · exact le_trans (replicate_infix_le_max_run v n xs hi) (le_max_right _ _)

lemma infix_of_reverse {l₁ l₂ : List String} (h : l₁ <:+: l₂) :
    l₁.reverse <:+: l₂.reverse := by
  obtain ⟨s, t, rfl⟩ := h
  exact ⟨t.reverse, s.reverse, by simp⟩

/-- Streak invariant: the longest run in either pick history is bounded by
the cap plus the number of relaxation iterations so far. -/
lemma build_loop_streak (w : Weights) (W S : ℕ) (hS : 1 ≤ S) :
    ∀ (n : ℕ) (st : BuilderState),
    max_run st.recent_topics.reverse ≤ S + st.relaxed_picks →
    max_run st.recent_channels.reverse ≤ S + st.relaxed_picks →
    max_run (build_loop w W S n st).recent_topics.reverse ≤
        S + (build_loop w W S n st).relaxed_picks ∧
      max_run (build_loop w W S n st).recent_channels.reverse ≤
        S + (build_loop w W S n st).relaxed_picks
  | 0, st, h1, h2 => by simpa [build_loop] using ⟨h1, h2⟩
  | n + 1, st, h1, h2 => by
    by_cases h : st.remaining = []
    · rw [build_loop_succ_empty w W S n st h]
      exact ⟨h1, h2⟩
    · rw [build_loop_succ w W S n st h]
      obtain ⟨e, _, ht, hc, _, _, _, _, hrel⟩ := build_step_spec w W S st h
      apply build_loop_streak w W S hS n
      · rw [ht, List.reverse_append]
        simp only [List.reverse_cons, List.reverse_nil, List.nil_append,
          List.singleton_append]
        rw [max_run_cons]
        rcases hrel with ⟨hr0, hwt, _⟩ | hr1
        · rw [hr0]
          have := wbs_false_tail st.recent_topics e.row.topic S hS hwt
          exact max_le (by omega) h1
        · rw [hr1]
          have := run_from_le_max_run e.row.topic st.recent_topics.reverse
          exact max_le (by omega) (by omega)
      · rw [hc, List.reverse_append]
        simp only [List.reverse_cons, List.reverse_nil, List.nil_append,
          List.singleton_append]
        rw [max_run_cons]
        rcases hrel with ⟨hr0, _, hwc⟩ | hr1
        · rw [hr0]
          have := wbs_false_tail st.recent_channels e.row.channel S hS hwc
          exact max_le (by omega) h2
        · rw [hr1]
          have := run_from_le_max_run e.row.channel st.recent_channels.reverse
          exact max_le (by omega) (by omega)


/-! Heap preservation lemmas. -/

lemma heap_cell_preserved {α : Type} (l : List α) (c v : α) (i : ℕ)
    (hi : i < l.length) :
    ((l ++ [c]).set l.length v).get? i = l.get? i := by
  rw [List.get?_set_ne _ _ (by omega), List.get?_append hi]

lemma build_step_heap_preserves (w : Weights) (W S : ℕ) (h : List Frame)
    (ar : ℕ) (rt rc : List String) :
    (∀ i, i < h.length →
        (build_step_heap w W S h ar rt rc).1.get? i = h.get? i) ∧
      h.length ≤ (build_step_heap w W S h ar rt rc).1.length := by
  constructor
  · intro i hi
    simp only [build_step_heap]
    split
    · exact heap_cell_preserved h _ _ i hi
    · rw [List.get?_append (by simpa using Nat.lt_succ_of_lt hi)]
      exact heap_cell_preserved h _ _ i hi
  · simp only [build_step_heap]
    split
    · simp
    · simp

lemma build_loop_heap_preserves (w : Weights) (W S : ℕ) :
    ∀ (n : ℕ) (h : List Frame) (ar : ℕ) (rt rc : List String)
      (feed : List ScoredRow) (i : ℕ), i < h.length →
      (build_loop_heap w W S n h ar rt rc feed).1.get? i = h.get? i
  | 0, h, ar, rt, rc, feed, i, hi => rfl
  | n + 1, h, ar, rt, rc, feed, i, hi => by
    rw [build_loop_heap]
    by_cases he : (((h.get? ar).map Frame.rows).getD []).isEmpty = true
    · rw [if_pos he]
    · rw [if_neg he]
      obtain ⟨hpres, hlen⟩ := build_step_heap_preserves w W S h ar rt rc
      rcases hstep : build_step_heap w W S h ar rt rc with ⟨h2, ar2, ob⟩
      rw [hstep] at hpres hlen
      simp only at hpres hlen
      cases ob with
      | none => exact hpres i hi
      | some best =>
        rw [build_loop_heap_preserves w W S n h2 ar2 _ _ _ i (by omega)]
        exact hpres i hi


/-! Claim theorems. -/

/-- C3: for every input pool and every k ≥ 0, the prototype feed has
length exactly min(k, pool size); in particular an empty pool yields an
empty feed, and the builder is a total function, so no error is raised. -/
theorem claim_C3_feed_length (df : List Candidate) (w : Weights) (k W S : ℕ) :
    (build_prototype_feed df w k W S).length = min k df.length ∧
      build_prototype_feed [] w k W S = [] := by
  constructor
  · rw [build_prototype_feed, build_loop_length]
    simp
  · apply List.eq_nil_of_length_eq_zero
    rw [build_prototype_feed, build_loop_length]
    simp

/-- C4: when the pool identifiers are distinct, no identifier appears
twice in the feed: the emitted rows together with the remaining pool stay
a permutation of the input pool, so the feed ids form a sublist of a
duplicate-free list. -/
theorem claim_C4_no_duplicates (df : List Candidate) (w : Weights)
    (k W S : ℕ) (h : (df.map (fun c => c.video_id)).Nodup) :
    ((build_prototype_feed df w k W S).map (fun e => e.row.video_id)).Nodup := by
  have hperm := build_loop_perm w W S k ⟨df, [], [], [], 0⟩
  simp only [List.map_nil, List.nil_append] at hperm
  have hperm2 := hperm.map (fun c => c.video_id)
  have hnd := (List.Perm.nodup_iff hperm2).mpr h
  rw [List.map_append] at hnd
  have hleft := List.Nodup.of_append_left hnd
  rw [build_prototype_feed]
  rw [List.map_map] at hleft
  exact hleft

/-- C5: with a positive cap S (the spec fixes S as a positive integer,
default 2), the repetition guard returns true iff the history has at
least S entries and its last S entries all equal the candidate value; in
particular it returns false whenever the history is shorter than S. -/
theorem claim_C5_guard_iff (l : List String) (v : String) (S : ℕ)
    (hS : 1 ≤ S) :
    (would_break_streak l v S = true ↔
      (S ≤ l.length ∧ ∀ x ∈ l.drop (l.length - S), x = v)) ∧
    (l.length < S → would_break_streak l v S = false) := by
  refine ⟨wbs_true_iff l v S hS, ?_⟩
  intro hlen
  unfold would_break_streak
  rw [if_pos hlen]

/-- C5 witness: on the concrete history a,a with cap 2 the guard fires. -/
theorem claim_C5_guard_iff_witness :
    would_break_streak ["a", "a"] "a" 2 = true :=
  (claim_C5_guard_iff ["a", "a"] "a" 2 (by norm_num)).1.mpr
    ⟨by decide, by decide⟩

lemma view_count_le_fold (df : List Candidate) (c : Candidate) (h : c ∈ df) :
    c.view_count ≤ df.foldr (fun c m => max c.view_count m) 0 := by
  induction df with
  | nil => cases h
  | cons a as ih =>
    rcases List.mem_cons.mp h with rfl | h
    · exact le_max_left _ _
    · exact le_trans (ih h) (le_max_right _ _)

/-- C7: engagement is the view count divided by the pool's maximal view
count, hence in [0,1]; when that maximum is 0 the divisor falls back
to 1 and every engagement is 0. -/
theorem claim_C7_engagement (df : List Candidate) (c : Candidate)
    (h : c ∈ (add_engagement df).1) :
    0 ≤ c.engagement ∧ c.engagement ≤ 1 ∧
      c.engagement = (c.view_count : ℚ) / (add_engagement df).2 ∧
      (df.foldr (fun c m => max c.view_count m) 0 = 0 → c.engagement = 0) := by
  simp only [add_engagement] at h ⊢
  obtain ⟨c0, hc0, rfl⟩ := List.mem_map.mp h
  have hle := view_count_le_fold df c0 hc0
  by_cases hM : df.foldr (fun c m => max c.view_count m) 0 = 0
  · have hv : c0.view_count = 0 := by omega
    rw [if_pos hM]
    simp [hv]
  · rw [if_neg hM]
    have hMpos : 0 < df.foldr (fun c m => max c.view_count m) 0 :=
      Nat.pos_of_ne_zero hM
    have hMQ : (0 : ℚ) <
        ((df.foldr (fun c m => max c.view_count m) 0 : ℕ) : ℚ) :=
      Nat.cast_pos.mpr hMpos
    refine ⟨div_nonneg (by positivity) (le_of_lt hMQ), ?_, rfl, fun hc => absurd hc hM⟩
    rw [div_le_one hMQ]
    exact Nat.cast_le.mpr hle

/-- C7 witness: a one-row pool with view count 0 gets engagement 0. -/
theorem claim_C7_engagement_witness :
    0 ≤ (Candidate.mk "v1" "A" "X1" 0 0 0 0).engagement ∧
      (Candidate.mk "v1" "A" "X1" 0 0 0 0).engagement ≤ 1 ∧
      (Candidate.mk "v1" "A" "X1" 0 0 0 0).engagement =
        ((Candidate.mk "v1" "A" "X1" 0 0 0 0).view_count : ℚ) /
          (add_engagement [Candidate.mk "v1" "A" "X1" 0 0 0 0]).2 ∧
      (([Candidate.mk "v1" "A" "X1" 0 0 0 0] :
          List Candidate).foldr (fun c m => max c.view_count m) 0 = 0 →
        (Candidate.mk "v1" "A" "X1" 0 0 0 0).engagement = 0) :=
  claim_C7_engagement [Candidate.mk "v1" "A" "X1" 0 0 0 0]
    (Candidate.mk "v1" "A" "X1" 0 0 0 0)
    (by norm_num [add_engagement])

/-- C9: with nonnegative preset weights night mode adds the fixed risk
boost 0.05, divides every weight by the new total (so the result sums to
exactly 1) and returns feed length 15; the night path ignores the
default k entirely. -/
theorem claim_C9_night_mode (w : Weights) (h1 : 0 ≤ w.e) (h2 : 0 ≤ w.d)
    (h3 : 0 ≤ w.p) (h4 : 0 ≤ w.r) :
    (night_mode_settings w).1 =
        ⟨w.e / (w.e + w.d + w.p + (w.r + 1/20)),
          w.d / (w.e + w.d + w.p + (w.r + 1/20)),
          w.p / (w.e + w.d + w.p + (w.r + 1/20)),
          (w.r + 1/20) / (w.e + w.d + w.p + (w.r + 1/20))⟩ ∧
      (night_mode_settings w).1.e + (night_mode_settings w).1.d +
          (night_mode_settings w).1.p + (night_mode_settings w).1.r = 1 ∧
      (night_mode_settings w).2 = NIGHT_MODE_K ∧
      (∀ (p : String) (kd1 kd2 : ℕ),
        get_mode_settings p true kd1 = get_mode_settings p true kd2) := by
  have hT : (0 : ℚ) < w.e + w.d + w.p + (w.r + 1/20) := by linarith
  have heq : night_mode_settings w =
      (⟨w.e / (w.e + w.d + w.p + (w.r + 1/20)),
        w.d / (w.e + w.d + w.p + (w.r + 1/20)),
        w.p / (w.e + w.d + w.p + (w.r + 1/20)),
        (w.r + 1/20) / (w.e + w.d + w.p + (w.r + 1/20))⟩, NIGHT_MODE_K) := by
    rw [night_mode_settings]
    simp only []
    rw [if_pos (by exact ne_of_gt hT)]
  refine ⟨by rw [heq], ?_, by rw [heq], ?_⟩
  · rw [heq]
    field_simp
    ring
  · intro p kd1 kd2
    rcases hW : WEIGHTS p with _ | wp <;> simp [get_mode_settings, hW]

/-- C9 witness: night mode on the entertainment preset. -/
theorem claim_C9_night_mode_witness :
    (night_mode_settings wEnt).1.e + (night_mode_settings wEnt).1.d +
        (night_mode_settings wEnt).1.p + (night_mode_settings wEnt).1.r = 1 ∧
      (night_mode_settings wEnt).2 = NIGHT_MODE_K :=
  ⟨(claim_C9_night_mode wEnt (by norm_num [wEnt]) (by norm_num [wEnt])
      (by norm_num [wEnt]) (by norm_num [wEnt])).2.1,
    (claim_C9_night_mode wEnt (by norm_num [wEnt]) (by norm_num [wEnt])
      (by norm_num [wEnt]) (by norm_num [wEnt])).2.2.1⟩

/-- C2: in an iteration with a non-empty pool, the builder takes the
relaxation branch (re-scoring every candidate without the guard) exactly
when every guarded score is the sentinel; it still emits one row (no
error is possible: the step is a total function), and the next iteration
applies the same guarded step again. -/
theorem claim_C2_relaxation (w : Weights) (W S : ℕ) (st : BuilderState)
    (h : st.remaining ≠ []) :
    ((∀ r ∈ strict_scored w W S st, r.score = none) →
        build_step w W S st = select_and_remove (relaxed_scored w W st) st 1) ∧
      ((∃ r ∈ strict_scored w W S st, r.score ≠ none) →
        build_step w W S st = select_and_remove (strict_scored w W S st) st 0) ∧
      (build_step w W S st).feed_rows.length = st.feed_rows.length + 1 ∧
      (∀ fuel : ℕ,
        build_loop w W S (fuel + 1) st =
          build_loop w W S fuel (build_step w W S st)) := by
  refine ⟨?_, ?_, ?_, fun fuel => build_loop_succ w W S fuel st h⟩
  · intro hall
    exact build_step_blocked w W S st ((max_score_eq_none_iff _).mpr hall)
  · rintro ⟨r, hr, hrs⟩
    refine build_step_not_blocked w W S st ?_
    intro hnone
    exact hrs ((max_score_eq_none_iff _).mp hnone r hr)
  · obtain ⟨e, h1, _, _, _, _, _, _, _⟩ := build_step_spec w W S st h
    rw [h1]
    simp

/-- C2 witness: one step on a singleton pool emits one row. -/
theorem claim_C2_relaxation_witness :
    (build_step wEnt 10 2
        ⟨[Candidate.mk "v1" "A" "X1" 0 0 0 0], [], [], [], 0⟩).feed_rows.length =
      ([] : List ScoredRow).length + 1 :=
  (claim_C2_relaxation wEnt 10 2
    ⟨[Candidate.mk "v1" "A" "X1" 0 0 0 0], [], [], [], 0⟩
    (List.cons_ne_nil _ _)).2.2.1


/-- C4 witness: the four-row fixture has distinct ids, and its feed ids
are duplicate-free. -/
theorem claim_C4_no_duplicates_witness :
    ((build_prototype_feed samePool wEnt 4 10 2).map
      (fun e => e.row.video_id)).Nodup :=
  claim_C4_no_duplicates samePool wEnt 4 10 2 (by decide)

/-- C8: the builder is a pure function of its arguments (identical runs
give identical feeds); a tie in the maximal score is broken in favour of
the first row in the pool's current order (every earlier row scores
strictly off the maximum); and mode resolution errors exactly on preset
names outside the enumerated set. -/
theorem claim_C8_determinism :
    (∀ (df : List Candidate) (w : Weights) (k W S : ℕ),
      build_prototype_feed df w k W S = build_prototype_feed df w k W S) ∧
    (∀ (l : List ScoredRow) (best : ScoredRow) (rest : List ScoredRow),
      extract_first (max_score l) l = some (best, rest) →
      best.score = max_score l ∧
        ∃ pre suf, l = pre ++ best :: suf ∧ rest = pre ++ suf ∧
          ∀ y ∈ pre, y.score ≠ max_score l) ∧
    (∀ (p : String) (n : Bool) (kd : ℕ),
      (get_mode_settings p n kd).toOption = none ↔
        ¬ (p = "baseline" ∨ p = "entertainment" ∨ p = "inspiration" ∨
          p = "learning")) := by
  refine ⟨fun _ _ _ _ _ => rfl, ?_, ?_⟩
  · intro l best rest he
    obtain ⟨pre, suf, h1, h2, h3, h4⟩ := extract_first_spec _ _ _ _ he
    exact ⟨h3, pre, suf, h1, h2, h4⟩
  · intro p n kd
    by_cases ha : p = "baseline"
    · subst ha
      cases n <;> simp [get_mode_settings, WEIGHTS, Except.toOption]
    by_cases hb : p = "entertainment"
    · subst hb
      cases n <;> simp [get_mode_settings, WEIGHTS, Except.toOption]
    by_cases hc : p = "inspiration"
    · subst hc
      cases n <;> simp [get_mode_settings, WEIGHTS, Except.toOption]
    by_cases hd : p = "learning"
    · subst hd
      cases n <;> simp [get_mode_settings, WEIGHTS, Except.toOption]
    · have hW : WEIGHTS p = none := by simp [WEIGHTS, ha, hb, hc, hd]
      simp [get_mode_settings, hW, Except.toOption, ha, hb, hc, hd]

/-- C8 witness: a two-way tie at score 0 goes to the first row; the
bogus preset name errors out. -/
theorem claim_C8_determinism_witness :
    (ScoredRow.mk (Candidate.mk "a" "A" "X" 0 0 0 0) 1 (some 0)).score =
        max_score
          [⟨Candidate.mk "a" "A" "X" 0 0 0 0, 1, some 0⟩,
            ⟨Candidate.mk "b" "B" "Y" 0 0 0 0, 1, some 0⟩] ∧
      (get_mode_settings "bogus" false 100).toOption = none :=
  ⟨(claim_C8_determinism.2.1
      [⟨Candidate.mk "a" "A" "X" 0 0 0 0, 1, some 0⟩,
        ⟨Candidate.mk "b" "B" "Y" 0 0 0 0, 1, some 0⟩]
      ⟨Candidate.mk "a" "A" "X" 0 0 0 0, 1, some 0⟩
      [⟨Candidate.mk "b" "B" "Y" 0 0 0 0, 1, some 0⟩]
      (by norm_num [extract_first, max_score, score_max])).1,
    (claim_C8_determinism.2.2 "bogus" false 100).mpr (by decide)⟩

/-- C10: neither the builder nor mode resolution writes to a pre-existing
heap cell: every cell of the caller-visible store — in particular the
input dataframe (its rows and its set of columns) and every preset
dictionary of the WEIGHTS table — is unchanged by a call. -/
theorem claim_C10_no_mutation :
    (∀ (h : List Frame) (adf : ℕ) (w : Weights) (k W S i : ℕ),
      i < h.length →
      (build_prototype_feed_heap h adf w k W S).1.get? i = h.get? i) ∧
    (∀ (hw : List Weights) (preset : String) (night : Bool) (kd i : ℕ),
      i < hw.length →
      (get_mode_settings_heap hw preset night kd).1.get? i = hw.get? i) := by
  constructor
  · intro h adf w k W S i hi
    rw [build_prototype_feed_heap]
    rw [build_loop_heap_preserves w W S k _ _ _ _ _ i
      (by simp only [List.length_append, List.length_cons, List.length_nil]; omega)]
    exact List.get?_append hi
  · intro hw preset night kd i hi
    rcases hA : WEIGHTS_addr preset with _ | a
    · simp [get_mode_settings_heap, hA]
    · cases night
      · simp [get_mode_settings_heap, hA]
      · rcases hg : hw[a]? with _ | wv
        · simp [get_mode_settings_heap, night_mode_settings_heap, hA,
            List.get?_eq_getElem?, hg]
        · simp [get_mode_settings_heap, night_mode_settings_heap, hA,
            List.get?_eq_getElem?, hg]
          split <;> exact List.getElem?_append_left hi

/-- C10 witness: a concrete store with the preset table and a one-frame
dataframe heap is untouched. -/
theorem claim_C10_no_mutation_witness :
    (build_prototype_feed_heap [Frame.plain samePool] 0 wEnt 4 10 2).1.get? 0 =
        ([Frame.plain samePool] : List Frame).get? 0 ∧
      (get_mode_settings_heap WEIGHTS_store "entertainment" true 100).1.get? 1 =
        WEIGHTS_store.get? 1 :=
  ⟨claim_C10_no_mutation.1 [Frame.plain samePool] 0 wEnt 4 10 2 0 (by decide),
    claim_C10_no_mutation.2 WEIGHTS_store "entertainment" true 100 1 (by decide)⟩


/-! Concrete trace of the builder on the same-topic fixture: the
relaxation branch fires on iterations 3 and 4, producing the topic run
A,A,A,A. -/

lemma samePool_state :
    build_loop wEnt 10 2 4 ⟨samePool, [], [], [], 0⟩ =
      ⟨[], [⟨⟨"v1", "A", "X1", 0, 0, 0, 0⟩, 1, some (1/5)⟩, ⟨⟨"v2", "A", "X2", 0, 0, 0, 0⟩, 1/2, some (1/10)⟩, ⟨⟨"v3", "A", "X3", 0, 0, 0, 0⟩, 1/2, some (1/10)⟩, ⟨⟨"v4", "A", "X4", 0, 0, 0, 0⟩, 1/2, some (1/10)⟩], ["A", "A", "A", "A"], ["X1", "X2", "X3", "X4"], 2⟩ := by
  have h1 : build_step wEnt 10 2 ⟨samePool, [], [], [], 0⟩ =
      ⟨[⟨"v2", "A", "X2", 0, 0, 0, 0⟩, ⟨"v3", "A", "X3", 0, 0, 0, 0⟩, ⟨"v4", "A", "X4", 0, 0, 0, 0⟩], [⟨⟨"v1", "A", "X1", 0, 0, 0, 0⟩, 1, some (1/5)⟩], ["A"], ["X1"], 0⟩ := by
    norm_num +decide [build_step, strict_scored, relaxed_scored,
      select_and_remove, extract_first, max_score, score_max, score_candidate,
      score_candidate_relaxed, diversity_counter, score_parts,
      would_break_streak, slice_last, samePool, wEnt, Option.some_ne_none,
      max_self]
  have h2 : build_step wEnt 10 2 ⟨[⟨"v2", "A", "X2", 0, 0, 0, 0⟩, ⟨"v3", "A", "X3", 0, 0, 0, 0⟩, ⟨"v4", "A", "X4", 0, 0, 0, 0⟩], [⟨⟨"v1", "A", "X1", 0, 0, 0, 0⟩, 1, some (1/5)⟩], ["A"], ["X1"], 0⟩ =
      ⟨[⟨"v3", "A", "X3", 0, 0, 0, 0⟩, ⟨"v4", "A", "X4", 0, 0, 0, 0⟩], [⟨⟨"v1", "A", "X1", 0, 0, 0, 0⟩, 1, some (1/5)⟩, ⟨⟨"v2", "A", "X2", 0, 0, 0, 0⟩, 1/2, some (1/10)⟩], ["A", "A"], ["X1", "X2"], 0⟩ := by
    norm_num +decide [build_step, strict_scored, relaxed_scored,
      select_and_remove, extract_first, max_score, score_max, score_candidate,
      score_candidate_relaxed, diversity_counter, score_parts,
      would_break_streak, slice_last, samePool, wEnt, Option.some_ne_none,
      max_self]
  have h3 : build_step wEnt 10 2 ⟨[⟨"v3", "A", "X3", 0, 0, 0, 0⟩, ⟨"v4", "A", "X4", 0, 0, 0, 0⟩], [⟨⟨"v1", "A", "X1", 0, 0, 0, 0⟩, 1, some (1/5)⟩, ⟨⟨"v2", "A", "X2", 0, 0, 0, 0⟩, 1/2, some (1/10)⟩], ["A", "A"], ["X1", "X2"], 0⟩ =
      ⟨[⟨"v4", "A", "X4", 0, 0, 0, 0⟩], [⟨⟨"v1", "A", "X1", 0, 0, 0, 0⟩, 1, some (1/5)⟩, ⟨⟨"v2", "A", "X2", 0, 0, 0, 0⟩, 1/2, some (1/10)⟩, ⟨⟨"v3", "A", "X3", 0, 0, 0, 0⟩, 1/2, some (1/10)⟩], ["A", "A", "A"], ["X1", "X2", "X3"], 1⟩ := by
    norm_num +decide [build_step, strict_scored, relaxed_scored,
      select_and_remove, extract_first, max_score, score_max, score_candidate,
      score_candidate_relaxed, diversity_counter, score_parts,
      would_break_streak, slice_last, samePool, wEnt, Option.some_ne_none,
      max_self]
  have h4 : build_step wEnt 10 2 ⟨[⟨"v4", "A", "X4", 0, 0, 0, 0⟩], [⟨⟨"v1", "A", "X1", 0, 0, 0, 0⟩, 1, some (1/5)⟩, ⟨⟨"v2", "A", "X2", 0, 0, 0, 0⟩, 1/2, some (1/10)⟩, ⟨⟨"v3", "A", "X3", 0, 0, 0, 0⟩, 1/2, some (1/10)⟩], ["A", "A", "A"], ["X1", "X2", "X3"], 1⟩ =
      ⟨[], [⟨⟨"v1", "A", "X1", 0, 0, 0, 0⟩, 1, some (1/5)⟩, ⟨⟨"v2", "A", "X2", 0, 0, 0, 0⟩, 1/2, some (1/10)⟩, ⟨⟨"v3", "A", "X3", 0, 0, 0, 0⟩, 1/2, some (1/10)⟩, ⟨⟨"v4", "A", "X4", 0, 0, 0, 0⟩, 1/2, some (1/10)⟩], ["A", "A", "A", "A"], ["X1", "X2", "X3", "X4"], 2⟩ := by
    norm_num +decide [build_step, strict_scored, relaxed_scored,
      select_and_remove, extract_first, max_score, score_max, score_candidate,
      score_candidate_relaxed, diversity_counter, score_parts,
      would_break_streak, slice_last, samePool, wEnt, Option.some_ne_none,
      max_self]
  rw [show (4 : ℕ) = 3 + 1 from rfl,
    build_loop_succ wEnt 10 2 3 _ (by simp [samePool]), h1,
    show (3 : ℕ) = 2 + 1 from rfl,
    build_loop_succ wEnt 10 2 2 _ (by simp), h2,
    show (2 : ℕ) = 1 + 1 from rfl,
    build_loop_succ wEnt 10 2 1 _ (by simp), h3,
    show (1 : ℕ) = 0 + 1 from rfl,
    build_loop_succ wEnt 10 2 0 _ (by simp), h4]
  rfl

lemma samePool_topics :
    topics_of (build_prototype_feed samePool wEnt 4 10 2) =
      ["A", "A", "A", "A"] := by
  simp only [build_prototype_feed]
  rw [samePool_state]
  rfl

lemma samePool_relax : relax_count samePool wEnt 4 10 2 = 2 := by
  simp only [relax_count]
  rw [samePool_state]


/-- C1 counterexample: the claim "every maximal run of consecutive
identical topic values has length at most S+1" fails on the code: with
the default cap S = 2, the four-row same-topic pool produces the topic
run A,A,A,A of length 4 > S + 1 = 3, because the relaxation branch fires
on two consecutive iterations (nothing limits it to once per feed). -/
theorem claim_C1_streak_cex :
    List.replicate 4 "A" <:+:
        topics_of (build_prototype_feed samePool wEnt 4 10 2) ∧
      ¬ (4 ≤ 2 + 1) := by
  refine ⟨?_, by omega⟩
  rw [samePool_topics]
  exact ⟨[], [], rfl⟩

/-- C1 (amended): for a positive cap S, every run of consecutive
identical topic values (and likewise channel values) in the feed has
length at most S + R, where R is the number of iterations of that build
in which the relaxation branch fired (hence at most S + 1 whenever
relaxation fired at most once). -/
theorem claim_C1_streak_amended (df : List Candidate) (w : Weights)
    (k W S : ℕ) (hS : 1 ≤ S) (v : String) (n : ℕ) :
    (List.replicate n v <:+: topics_of (build_prototype_feed df w k W S) →
      n ≤ S + relax_count df w k W S) ∧
    (List.replicate n v <:+: channels_of (build_prototype_feed df w k W S) →
      n ≤ S + relax_count df w k W S) := by
  have hhist := build_loop_histories w W S k ⟨df, [], [], [], 0⟩ rfl rfl
  have hstreak := build_loop_streak w W S hS k ⟨df, [], [], [], 0⟩
    (by simp [max_run]) (by simp [max_run])
  simp only [build_prototype_feed, relax_count]
  constructor
  · intro hin
    rw [← hhist.1] at hin
    have h2 := infix_of_reverse hin
    rw [List.reverse_replicate] at h2
    exact le_trans (replicate_infix_le_max_run v n _ h2) hstreak.1
  · intro hin
    rw [← hhist.2] at hin
    have h2 := infix_of_reverse hin
    rw [List.reverse_replicate] at h2
    exact le_trans (replicate_infix_le_max_run v n _ h2) hstreak.2

/-- C1 (amended) witness: on the same-topic fixture the topic run of
length 4 is within S + R = 2 + 2. -/
theorem claim_C1_streak_amended_witness :
    4 ≤ 2 + relax_count samePool wEnt 4 10 2 :=
  (claim_C1_streak_amended samePool wEnt 4 10 2 (by norm_num) "A" 4).1
    (by rw [samePool_topics]; exact ⟨[], [], rfl⟩)

/-- C6: the diversity bonus is 0.5 for a topic absent from the topic
window plus 0.5 for a channel absent from the channel window
(exact-match membership), hence lies in the set 0, 1/2, 1; and every
emitted feed entry has its diversity in that set and never carries the
minus-infinity sentinel as its score (a blocked candidate is only
selected through the relaxation pass, which re-scores it). -/
theorem claim_C6_diversity_range :
    (∀ (t c : String) (rt rc : List String),
      diversity_counter t c rt rc =
          (if t ∉ rt then 1/2 else 0) + (if c ∉ rc then 1/2 else 0) ∧
        (diversity_counter t c rt rc = 0 ∨ diversity_counter t c rt rc = 1/2 ∨
          diversity_counter t c rt rc = 1)) ∧
    (∀ (df : List Candidate) (w : Weights) (k W S : ℕ),
      ∀ e ∈ build_prototype_feed df w k W S,
        (e.diversity = 0 ∨ e.diversity = 1/2 ∨ e.diversity = 1) ∧
          e.score ≠ none) := by
  constructor
  · intro t c rt rc
    refine ⟨?_, diversity_counter_cases t c rt rc⟩
    unfold diversity_counter
    split <;> split <;> norm_num
  · intro df w k W S e he
    simp only [build_prototype_feed] at he
    rcases build_loop_entries w W S k ⟨df, [], [], [], 0⟩ e he with
      hmem | ⟨hsc, hdiv⟩
    · simp at hmem
    · exact ⟨hdiv, hsc⟩

/-- C6 witness: the first emitted row of the fixture build has diversity
1 and a finite score. -/
theorem claim_C6_diversity_range_witness :
    ((⟨⟨"v1", "A", "X1", 0, 0, 0, 0⟩, 1, some (1/5)⟩ : ScoredRow).diversity = 0 ∨
      (⟨⟨"v1", "A", "X1", 0, 0, 0, 0⟩, 1, some (1/5)⟩ : ScoredRow).diversity = 1/2 ∨
      (⟨⟨"v1", "A", "X1", 0, 0, 0, 0⟩, 1, some (1/5)⟩ : ScoredRow).diversity = 1) ∧
      (⟨⟨"v1", "A", "X1", 0, 0, 0, 0⟩, 1, some (1/5)⟩ : ScoredRow).score ≠ none :=
  claim_C6_diversity_range.2 samePool wEnt 4 10 2
    ⟨⟨"v1", "A", "X1", 0, 0, 0, 0⟩, 1, some (1/5)⟩
    (by
      simp only [build_prototype_feed]
      rw [samePool_state]
      exact List.mem_cons_self _ _)

end MorphoMedia
